import Mathlib

/-!
Shallow embedding of the `gas-aws` AWS Signature Version 4 signing library
(source files `src/main.ts` and `src/config.ts`).

Modelling conventions:
- JavaScript strings are Lean `String`s; byte sequences are `List Nat`.
- External collaborators are passed in as function parameters:
  `Crypto.HmacSHA256` is an `hmac : List Nat → List Nat → List Nat`
  (key, then message, both as raw bytes), `Crypto.SHA256` is a
  `sha256 : String → String` returning the hex digest, `UrlFetchApp.fetch`
  is a `fetch : FetchRequest → FetchResponse`, `JSON.parse` is a
  `parseJson : String → Json`, and the current date is passed in as the two
  already-formatted strings that `getCanonicalFullDate` / `getCanonicalShortDate`
  would produce.
- JavaScript objects used as string maps (`Record<string, ...>`) are
  association lists in insertion order; `obj[k] = v` is `objSet`,
  `delete obj[k]` is `objDelete`, property reads are `jsGet`.
- Optional values / `undefined` are `Option`.
-/

/-- Whitespace class of JavaScript regular expressions (the set matched by
the regex class used in header-value normalization, which is also the set
removed by `String.prototype.trim`). -/
def isJsWs (c : Char) : Bool :=
  let n := c.toNat
  (n == 32) || (n == 9) || (n == 10) || (n == 11) || (n == 12) || (n == 13) ||
  (n == 0xA0) || (n == 0x1680) || (0x2000 ≤ n && n ≤ 0x200A) ||
  (n == 0x2028) || (n == 0x2029) || (n == 0x202F) || (n == 0x205F) ||
  (n == 0x3000) || (n == 0xFEFF)

/-- `String.prototype.trim` on a character list: drop leading and trailing
whitespace. -/
def jsTrimL (l : List Char) : List Char :=
  ((l.dropWhile isJsWs).reverse.dropWhile isJsWs).reverse

/-- `String.prototype.trim`. -/
def jsTrim (s : String) : String :=
  String.mk (jsTrimL s.data)

/-- `String.prototype.toLowerCase` on the ASCII range (`Char.toLower`
lowercases exactly the ASCII uppercase letters). -/
def jsToLower (s : String) : String :=
  String.mk (s.data.map Char.toLower)

/-- `String.prototype.toUpperCase` on the ASCII range. -/
def jsToUpper (s : String) : String :=
  String.mk (s.data.map Char.toUpper)

/-- Replacement of every maximal run of 2 or more whitespace characters by a
single space, leaving isolated whitespace characters unchanged (the regex
replace with pattern "2-or-more whitespace", global, by one space, used on
header values in `getCanonicalRequestHash`). -/
def collapseWsL : List Char → List Char
  | [] => []
  | [c] => [c]
  | c1 :: c2 :: rest =>
    if isJsWs c1 then
      if isJsWs c2 then collapseWsL (' ' :: rest)
      else c1 :: collapseWsL (c2 :: rest)
    else c1 :: collapseWsL (c2 :: rest)
termination_by l => l.length

/-- Header-value normalization from `getCanonicalRequestHash`:
`value.trim().replace(<runs of 2+ whitespace>, <one space>)`. -/
def normalizeHeaderValue (s : String) : String :=
  String.mk (collapseWsL (jsTrimL s.data))

/-- UTF-8 encoding of one Unicode scalar value. -/
def utf8Encode (c : Char) : List Nat :=
  let n := c.toNat
  if n < 0x80 then [n]
  else if n < 0x800 then [0xC0 + n / 64, 0x80 + n % 64]
  else if n < 0x10000 then [0xE0 + n / 4096, 0x80 + n / 64 % 64, 0x80 + n % 64]
  else [0xF0 + n / 262144, 0x80 + n / 4096 % 64, 0x80 + n / 64 % 64, 0x80 + n % 64]

/-- UTF-8 bytes of a string. -/
def utf8Bytes (s : String) : List Nat :=
  s.data.foldr (fun c acc => utf8Encode c ++ acc) []

/-- Lowercase hexadecimal digit for a value below 16. -/
def hexDigitLower (n : Nat) : Char :=
  if n < 10 then Char.ofNat (48 + n) else Char.ofNat (87 + n)

/-- Uppercase hexadecimal digit for a value below 16. -/
def hexDigitUpper (n : Nat) : Char :=
  if n < 10 then Char.ofNat (48 + n) else Char.ofNat (55 + n)

/-- Two lowercase hex digits of a byte. -/
def byteToHexLower (b : Nat) : List Char :=
  [hexDigitLower (b / 16 % 16), hexDigitLower (b % 16)]

/-- Two uppercase hex digits of a byte. -/
def byteToHexUpper (b : Nat) : List Char :=
  [hexDigitUpper (b / 16 % 16), hexDigitUpper (b % 16)]

/-- Lowercase hex string of a byte sequence.  Modelled from the spec: this is
the byte-to-hex conversion the external `Crypto` collaborator applies to an
HMAC result when called without `asBytes`, producing a lowercase hex string. -/
def bytesToHexLower (bs : List Nat) : String :=
  String.mk (bs.foldr (fun b acc => byteToHexLower b ++ acc) [])

/-- Characters `encodeURIComponent` leaves unescaped: ASCII letters, digits,
and `- _ . ! ~ *` `( )` and the apostrophe (code 39). -/
def isUriUnreserved (c : Char) : Bool :=
  let n := c.toNat
  (65 ≤ n && n ≤ 90) || (97 ≤ n && n ≤ 122) || (48 ≤ n && n ≤ 57) ||
  (c == '-') || (c == '_') || (c == '.') || (c == '!') || (c == '~') ||
  (c == '*') || (c == Char.ofNat 39) || (c == '(') || (c == ')')

/-- Percent-encoding of one character (its UTF-8 bytes, each as `%XX` with
uppercase hex digits). -/
def percentEncodeChar (c : Char) : List Char :=
  (utf8Encode c).foldr (fun b acc => '%' :: (byteToHexUpper b ++ acc)) []

/-- `encodeURIComponent` on a character list. -/
def encodeURIComponentL (l : List Char) : List Char :=
  l.foldr (fun c acc => (if isUriUnreserved c then [c] else percentEncodeChar c) ++ acc) []

/-- JavaScript `encodeURIComponent`. -/
def encodeURIComponent (s : String) : String :=
  String.mk (encodeURIComponentL s.data)

/-- Characters `encodeURI` leaves unescaped: the `encodeURIComponent` set plus
the URI-reserved characters. -/
def isUriUnescapedForURI (c : Char) : Bool :=
  isUriUnreserved c ||
  (c == '#') || (c == '$') || (c == '&') || (c == '+') || (c == ',') ||
  (c == '/') || (c == ':') || (c == ';') || (c == '=') || (c == '?') || (c == '@')

/-- JavaScript `encodeURI`. -/
def encodeURI (s : String) : String :=
  String.mk (s.data.foldr
    (fun c acc => (if isUriUnescapedForURI c then [c] else percentEncodeChar c) ++ acc) [])

/-- JavaScript `String.prototype.split` on the single character `/`
(an empty string yields one empty segment). -/
def splitSlash : List Char → List (List Char)
  | [] => [[]]
  | c :: rest =>
    if c = '/' then [] :: splitSlash rest
    else
      match splitSlash rest with
      | s :: ss => (c :: s) :: ss
      | [] => [[c]]

/-- `Array.prototype.join` with separator `/` on character lists. -/
def joinSlash : List (List Char) → List Char
  | [] => []
  | [s] => s
  | s :: t :: rest => s ++ '/' :: joinSlash (t :: rest)

/-- Path normalization from `getCanonicalRequestHash`
(`path.split(<slash>).map(encodeURIComponent).join(<slash>)`). -/
def normalizedPath (s : String) : String :=
  String.mk (joinSlash ((splitSlash s.data).map encodeURIComponentL))

/-- Base64 alphabet value of a character (characters outside the alphabet
map to 0). -/
def base64Val (c : Char) : Nat :=
  let n := c.toNat
  if 65 ≤ n ∧ n ≤ 90 then n - 65
  else if 97 ≤ n ∧ n ≤ 122 then n - 71
  else if 48 ≤ n ∧ n ≤ 57 then n + 4
  else if c = '+' then 62
  else if c = '/' then 63
  else 0

/-- Base64 decoding of a padding-stripped character list into bytes. -/
def base64DecodeGroups : List Char → List Nat
  | c1 :: c2 :: c3 :: c4 :: rest =>
    let v1 := base64Val c1
    let v2 := base64Val c2
    let v3 := base64Val c3
    let v4 := base64Val c4
    (v1 * 4 + v2 / 16) :: (v2 % 16 * 16 + v3 / 4) :: (v3 % 4 * 64 + v4) ::
      base64DecodeGroups rest
  | [c1, c2, c3] =>
    let v1 := base64Val c1
    let v2 := base64Val c2
    let v3 := base64Val c3
    [v1 * 4 + v2 / 16, v2 % 16 * 16 + v3 / 4]
  | [c1, c2] =>
    let v1 := base64Val c1
    let v2 := base64Val c2
    [v1 * 4 + v2 / 16]
  | [_] => []
  | [] => []

/-- Modelled from the spec: the external `Utilities.base64Decode`
collaborator, decoding a base64 string to a byte array. -/
def base64Decode (s : String) : List Nat :=
  base64DecodeGroups (s.data.filter (fun c => c ≠ '='))

/-- Base64 sextet to alphabet character. -/
def base64Char (n : Nat) : Char :=
  if n < 26 then Char.ofNat (65 + n)
  else if n < 52 then Char.ofNat (71 + n)
  else if n < 62 then Char.ofNat (n - 4)
  else if n = 62 then '+'
  else '/'

/-- Base64 encoding of a byte list (with `=` padding). -/
def base64EncodeBytes : List Nat → List Char
  | b1 :: b2 :: b3 :: rest =>
    base64Char (b1 / 4) :: base64Char (b1 % 4 * 16 + b2 / 16) ::
      base64Char (b2 % 16 * 4 + b3 / 64) :: base64Char (b3 % 64) ::
      base64EncodeBytes rest
  | [b1, b2] =>
    [base64Char (b1 / 4), base64Char (b1 % 4 * 16 + b2 / 16),
      base64Char (b2 % 16 * 4), '=']
  | [b1] =>
    [base64Char (b1 / 4), base64Char (b1 % 4 * 16), '=', '=']
  | [] => []

/-- Modelled from the spec: the external `Utilities.base64Encode`
collaborator on a string (the base64 of its UTF-8 bytes). -/
def base64Encode (s : String) : String :=
  String.mk (base64EncodeBytes (utf8Bytes s))

/-- JSON values, the result type of the external `JSON.parse` collaborator.
Objects keep their fields in insertion order. -/
inductive Json where
  | null : Json
  | bool (b : Bool) : Json
  | num (n : Int) : Json
  | str (s : String) : Json
  | arr (items : List Json) : Json
  | obj (fields : List (String × Json)) : Json

/-- Property read on an association list (JavaScript `obj[key]` /
`obj.key`, `undefined` when absent). -/
def jsGet : List (String × String) → String → Option String
  | [], _ => none
  | (k, v) :: rest, key => if k = key then some v else jsGet rest key

/-- Field read on a JSON value with optional chaining
(JavaScript `value?.key`: `undefined` unless an object with that field). -/
def Json.getField : Json → String → Option Json
  | .obj fields, key => go fields key
  | _, _ => none
where
  go : List (String × Json) → String → Option Json
    | [], _ => none
    | (k, v) :: rest, key => if k = key then some v else go rest key

/-- JavaScript truthiness of a JSON value. -/
def jsTruthy : Json → Bool
  | .null => false
  | .bool b => b
  | .num n => n ≠ 0
  | .str s => s ≠ ""
  | .arr _ => true
  | .obj _ => true

/-- JavaScript `a || b` on possibly-undefined JSON values: the left operand
when it is defined and truthy, otherwise the right operand. -/
def jsOrElse (a b : Option Json) : Option Json :=
  if (match a with | some v => jsTruthy v | none => false) then a else b

/-- JavaScript property assignment `obj[key] = v` on an association list:
an existing key keeps its position and gets the new value, a new key is
appended at the end. -/
def objSet (l : List (String × String)) (key v : String) : List (String × String) :=
  if l.any (fun p => p.1 = key) then
    l.map (fun p => if p.1 = key then (key, v) else p)
  else l ++ [(key, v)]

/-- JavaScript `delete obj[key]` on an association list. -/
def objDelete (l : List (String × String)) (key : String) : List (String × String) :=
  l.filter (fun p => p.1 ≠ key)

/-- `calculateSignature` from `src/main.ts`: the SigV4 signing computation.
`hmac key message` stands for the external `Crypto.HmacSHA256(message, key,
asBytes)` collaborator (raw bytes in, raw bytes out; string arguments are
its UTF-8 bytes); the final call without `asBytes` yields the lowercase hex
encoding of the HMAC bytes. -/
def calculateSignature (hmac : List Nat → List Nat → List Nat)
    (key dateStamp regionName serviceName stringToSign : String) : String :=
  let kDate := hmac (utf8Bytes ("AWS4" ++ key)) (utf8Bytes dateStamp)
  let kRegion := hmac kDate (utf8Bytes regionName)
  let kService := hmac kRegion (utf8Bytes serviceName)
  let kSigning := hmac kService (utf8Bytes "aws4_request")
  bytesToHexLower (hmac kSigning (utf8Bytes stringToSign))

/-- Byte-wise (code-unit-wise) string comparison of JavaScript `<` on
character lists: lexicographic by character code.  (JavaScript compares
UTF-16 code units; this coincides with code-point order on strings of
basic-plane characters, which covers every string built by the
canonicalizers here.) -/
def charListLe : List Char → List Char → Bool
  | [], _ => true
  | _ :: _, [] => false
  | a :: as, b :: bs =>
    if a.toNat < b.toNat then true
    else if b.toNat < a.toNat then false
    else charListLe as bs

/-- JavaScript string less-or-equal, as used by the sort comparators
(`a === b ? 0 : a > b ? 1 : -1`): `a` may stay before `b` exactly when
`a <= b`. -/
def jsStrLe (a b : String) : Bool :=
  charListLe a.data b.data

/-- The sorting relation of the query-token comparator. -/
def strLeP (a b : String) : Prop := jsStrLe a b = true

instance : DecidableRel strLeP :=
  fun a b => inferInstanceAs (Decidable (jsStrLe a b = true))

/-- The sorting relation of the header comparator: compare normalized keys
only (the comparator returns 0 on equal keys, so the stable sort keeps the
insertion order of equal keys). -/
def pairKeyLe (a b : String × String) : Prop := jsStrLe a.1 b.1 = true

instance : DecidableRel pairKeyLe :=
  fun a b => inferInstanceAs (Decidable (jsStrLe a.1 b.1 = true))

/-- `getCanonicalQueryString` from `src/main.ts`.  The query object is its
association list in insertion order; a value is `none` when it is `null` or
`undefined` (the code substitutes the empty string), and numeric values are
represented by the string they coerce to. -/
def getCanonicalQueryString (query : List (String × Option String)) : String :=
  String.intercalate "&"
    (List.insertionSort strLeP
      (query.map (fun part =>
        encodeURIComponent (jsTrim part.1) ++ "=" ++ encodeURIComponent (part.2.getD ""))))

/-- Header normalization and sorting from `getCanonicalRequestHash` in
`src/main.ts`: lowercase and trim every key, trim and whitespace-collapse
every value, then sort by key with the comparator that returns 0 on equal
keys (a stable sort, as in the V8 runtime).  `String.toLower` lowercases
ASCII letters, matching `toLowerCase` on the ASCII range. -/
def sortedHeaders (headers : List (String × String)) : List (String × String) :=
  List.insertionSort pairKeyLe
    (headers.map (fun h => (jsToLower (jsTrim h.1), normalizeHeaderValue h.2)))

/-- `getCanonicalRequestHash` from `src/main.ts`.  `sha256` is the external
`Crypto.SHA256` collaborator returning the hex digest of a string.  Returns
the pair of the hashed canonical request and the signed-headers string. -/
def getCanonicalRequestHash (sha256 : String → String) (method path : String)
    (headers : List (String × String)) (queryString payloadString : String) :
    String × String :=
  let pushed := (sortedHeaders headers).foldl
    (fun acc h => (acc.1 ++ [h.1 ++ ":" ++ h.2 ++ "\n"], acc.2 ++ [h.1]))
    (([] : List String), ([] : List String))
  let canonicalHeadersStr := String.join pushed.1
  let signedHeadersStr := String.intercalate ";" pushed.2
  let canonicalRequest := String.intercalate "\n"
    [method, normalizedPath path, queryString, canonicalHeadersStr,
      signedHeadersStr, sha256 payloadString]
  (sha256 canonicalRequest, signedHeadersStr)

/-- `HASH_ALGORITHM` from `src/main.ts`. -/
def HASH_ALGORITHM : String := "AWS4-HMAC-SHA256"

/-- `AWS_SINGLE_ENDPOINT` from `src/main.ts`. -/
def AWS_SINGLE_ENDPOINT : List (String × String) :=
  [("cloudfront", "cloudfront.amazonaws.com"),
   ("health", "health.us-east-1.amazonaws.com"),
   ("iam", "iam.amazonaws.com"),
   ("importexport", "importexport.amazonaws.com"),
   ("shield", "shield.us-east-1.amazonaws.com"),
   ("waf", "waf.amazonaws.com")]

/-- Host resolution from `request` in `src/main.ts`:
`AWS_SINGLE_ENDPOINT[service] ? AWS_SINGLE_ENDPOINT[service]
: service + "." + region + ".amazonaws.com"` (a present but falsy table
entry, i.e. the empty string, would also fall through). -/
def hostFor (service region : String) : String :=
  match jsGet AWS_SINGLE_ENDPOINT service with
  | some h => if h = "" then service ++ "." ++ region ++ ".amazonaws.com" else h
  | none => service ++ "." ++ region ++ ".amazonaws.com"

/-- A `payload` argument: either a string, or a non-string value carried
together with its `JSON.stringify` serialization (serialization by the
external JSON collaborator). -/
inductive PayloadValue where
  | ofString (s : String) : PayloadValue
  | ofJson (serialized : String) : PayloadValue

/-- The payload string used by `request`:
`typeof payload === "string" ? payload : JSON.stringify(payload)`. -/
def payloadStringOf : PayloadValue → String
  | .ofString s => s
  | .ofJson serialized => serialized

/-- `RequestParams` from `src/main.ts` (optional fields are `Option`). -/
structure RequestParams where
  accessKeyId : Option String := none
  secretAccessKey : Option String := none
  service : String
  region : Option String := none
  path : Option String := none
  query : Option (List (String × Option String)) := none
  method : Option String := none
  headers : Option (List (String × String)) := none
  payload : Option PayloadValue := none

/-- The credentials record of `AWSConfig` in `src/config.ts`.  The fields are
`Option` so that an embedding application that leaves a field `undefined`
(the situation the `assert` calls in `request` guard against) is
representable; `src/config.ts` itself initializes both to the empty string. -/
structure AWSCredentials where
  accessKeyId : Option String
  secretAccessKey : Option String

/-- `AWSConfig` from `src/config.ts`. -/
structure AWSConfig where
  apiVersions : List (String × String)
  credentials : AWSCredentials
  region : Option String

/-- `AWS.config` from `src/config.ts`: empty-string credentials, region
`us-west-1`, lambda API version `2015-03-31`. -/
def config : AWSConfig :=
  { apiVersions := [("lambda", "2015-03-31")],
    credentials := { accessKeyId := some "", secretAccessKey := some "" },
    region := some "us-west-1" }

/-- Access-key resolution from `request`:
`params.accessKeyId ?? AWS.config.credentials.accessKeyId`. -/
def resolveAccessKeyId (params : RequestParams) (cfg : AWSConfig) : Option String :=
  match params.accessKeyId with
  | some k => some k
  | none => cfg.credentials.accessKeyId

/-- Secret-key resolution from `request`:
`params.secretAccessKey ?? AWS.config.credentials.secretAccessKey`. -/
def resolveSecretAccessKey (params : RequestParams) (cfg : AWSConfig) : Option String :=
  match params.secretAccessKey with
  | some k => some k
  | none => cfg.credentials.secretAccessKey

/-- Region resolution from `request`:
`params.region ? params.region.toLowerCase() : AWS.config.region`
(an empty explicit region is falsy and falls back to the default). -/
def resolveRegion (params : RequestParams) (cfg : AWSConfig) : Option String :=
  match params.region with
  | some r => if r = "" then cfg.region else some (jsToLower r)
  | none => cfg.region

/-- The request handed to the external `UrlFetchApp.fetch` collaborator. -/
structure FetchRequest where
  uri : String
  method : String
  headers : List (String × String)
  muteHttpExceptions : Bool
  payload : String

/-- The response returned by the external `UrlFetchApp.fetch` collaborator
(`getResponseCode()`, `getAllHeaders()`, `getContentText()`). -/
structure FetchResponse where
  responseCode : Nat
  headers : List (String × String)
  contentText : String

/-- Errors thrown by `request` itself: the `assert` failures that guard
configuration (the spec's `ConfigurationError`). -/
inductive AWSError where
  | configurationError (msg : String) : AWSError

/-- Path defaulting and leading-slash insertion from `request`:
`params.path ?? "/"`, then prepend `/` when the first character is not `/`. -/
def resolvedPath (params : RequestParams) : String :=
  let p := params.path.getD "/"
  if p.take 1 ≠ "/" then "/" ++ p else p

/-- Method defaulting and uppercasing from `request`:
`(params.method ?? "get").toUpperCase()`. -/
def resolvedMethod (params : RequestParams) : String :=
  jsToUpper (params.method.getD "get")

/-- Payload defaulting and serialization from `request`. -/
def resolvedPayloadString (params : RequestParams) : String :=
  payloadStringOf (params.payload.getD (PayloadValue.ofString ""))

/-- The credential scope
`dateStringShort + "/" + region + "/" + service + "/aws4_request"`. -/
def credentialScopeOf (dateShort region service : String) : String :=
  dateShort ++ "/" ++ region ++ "/" ++ service ++ "/aws4_request"

/-- The string to sign: algorithm name, full date, credential scope and
hashed canonical request, joined by newlines. -/
def stringToSignOf (dateFull scope hashedCanonicalRequest : String) : String :=
  String.intercalate "\n" [HASH_ALGORITHM, dateFull, scope, hashedCanonicalRequest]

/-- The `Authorization` header value built by `request`. -/
def authHeaderValueOf (accessKeyId scope signedHeaders sig : String) : String :=
  String.intercalate ", "
    [HASH_ALGORITHM ++ " Credential=" ++ accessKeyId ++ "/" ++ scope,
     "SignedHeaders=" ++ signedHeaders, "Signature=" ++ sig]

/-- The headers map after `request` sets `Host` and `X-Amz-Date` (the state
in which the canonical request is hashed). -/
def headersWithHostDate (params : RequestParams) (host dateFull : String) :
    List (String × String) :=
  objSet (objSet (params.headers.getD []) "Host" host) "X-Amz-Date" dateFull

/-- The headers map `request` finally hands to the transport collaborator:
`Authorization` added after signing, then `Host` deleted. -/
def finalRequestHeaders (hmac : List Nat → List Nat → List Nat)
    (sha256 : String → String) (dateFull dateShort : String)
    (accessKeyId secretAccessKey service region : String)
    (params : RequestParams) : List (String × String) :=
  let headers1 := headersWithHostDate params (hostFor service region) dateFull
  let crh := getCanonicalRequestHash sha256 (resolvedMethod params)
    (resolvedPath params) headers1
    (getCanonicalQueryString (params.query.getD []))
    (resolvedPayloadString params)
  let scope := credentialScopeOf dateShort region service
  let sig := calculateSignature hmac secretAccessKey dateShort region service
    (stringToSignOf dateFull scope crh.1)
  objDelete (objSet headers1 "Authorization" (authHeaderValueOf accessKeyId scope crh.2 sig))
    "Host"

/-- The fully signed request `request` hands to `UrlFetchApp.fetch`, given
already-resolved credentials, lowercased service and resolved region. -/
def buildSignedFetchRequest (hmac : List Nat → List Nat → List Nat)
    (sha256 : String → String) (dateFull dateShort : String)
    (accessKeyId secretAccessKey service region : String)
    (params : RequestParams) : FetchRequest :=
  let host := hostFor service region
  let path := resolvedPath params
  let queryString := getCanonicalQueryString (params.query.getD [])
  { uri := "https://" ++ host ++ path ++
      (if queryString ≠ "" then "?" ++ queryString else ""),
    method := resolvedMethod params,
    headers := finalRequestHeaders hmac sha256 dateFull dateShort accessKeyId
      secretAccessKey service region params,
    muteHttpExceptions := true,
    payload := resolvedPayloadString params }

/-- `AWS.request` from `src/main.ts`.  The date collaborator is represented
by the two formatted strings `dateFull` / `dateShort`; `fetch` is the
external transport collaborator.  A thrown `assert` error is the `.error`
case; otherwise the transport response is returned unmodified. -/
def request (cfg : AWSConfig) (hmac : List Nat → List Nat → List Nat)
    (sha256 : String → String) (dateFull dateShort : String)
    (fetch : FetchRequest → FetchResponse) (params : RequestParams) :
    Except AWSError FetchResponse :=
  match resolveAccessKeyId params cfg with
  | none => .error (.configurationError "AWS access key id not specified")
  | some accessKeyId =>
    match resolveSecretAccessKey params cfg with
    | none => .error (.configurationError "AWS secret access key not specified")
    | some secretAccessKey =>
      match resolveRegion params cfg with
      | none => .error (.configurationError "AWS region not specified")
      | some region =>
        .ok (fetch (buildSignedFetchRequest hmac sha256 dateFull dateShort
          accessKeyId secretAccessKey (jsToLower params.service) region params))

/-- `LambdaInvokeParams` from `src/main.ts`.  `ClientContext` is a non-null
object modelled, when present, by its `JSON.stringify` serialization (the
external JSON collaborator). -/
structure LambdaInvokeParams where
  ClientContext : Option String := none
  FunctionName : String
  Payload : PayloadValue
  InvocationType : Option String := none
  LogType : Option String := none
  Qualifier : Option String := none

/-- The invocation path built by `Lambda.invoke`:
`/{apiVersions.lambda}/functions/` + `encodeURI(FunctionName)` +
`/invocations` (a missing API version would interpolate as `undefined`). -/
def lambdaInvokePath (cfg : AWSConfig) (p : LambdaInvokeParams) : String :=
  "/" ++ (jsGet cfg.apiVersions "lambda").getD "undefined" ++ "/functions/" ++
    encodeURI p.FunctionName ++ "/invocations"

/-- The query object built by `Lambda.invoke`: conditional entries for
`ClientContext` (base64 of its JSON), `InvocationType`, `LogType` and
`Qualifier`, in that insertion order (each `if` is a JavaScript truthiness
test, so a present empty string is skipped). -/
def lambdaQuery (p : LambdaInvokeParams) : List (String × Option String) :=
  (match p.ClientContext with
   | some cc => [("ClientContext", some (base64Encode cc))]
   | none => []) ++
  (match p.InvocationType with
   | some s => if s = "" then [] else [("InvocationType", some s)]
   | none => []) ++
  (match p.LogType with
   | some s => if s = "" then [] else [("LogType", some s)]
   | none => []) ++
  (match p.Qualifier with
   | some s => if s = "" then [] else [("Qualifier", some s)]
   | none => [])

/-- The `RequestParams` that `Lambda.invoke` passes to `AWS.request`. -/
def lambdaRequestParams (cfg : AWSConfig) (p : LambdaInvokeParams) : RequestParams :=
  { service := "lambda",
    path := some (lambdaInvokePath cfg p),
    method := some "post",
    headers := some [("Content-Type", "application/json; charset=utf-8")],
    payload := some p.Payload,
    query := some (lambdaQuery p) }

/-- Errors thrown out of `Lambda.invoke`: either an error propagated from
`AWS.request`, or the `Error(message)` thrown on a non-2xx status (the
spec's `ServiceInvocationError`, carrying the message value, which is
`undefined` when neither `errorMessage` nor `message` is present and
truthy). -/
inductive LambdaError where
  | thrown (e : AWSError) : LambdaError
  | invocation (message : Option Json) : LambdaError

/-- The result record returned by `Lambda.invoke`. -/
structure LambdaInvokeResult where
  StatusCode : Nat
  ExecutedVersion : Option String
  LogResult : Option (List Nat)
  Payload : Json

/-- The response handling of `Lambda.invoke` (source lines building the
result record from the transport response, logging and throwing on a status
outside 200..299).  `parseJson` is the external `JSON.parse` collaborator. -/
def handleInvokeResponse (parseJson : String → Json) (response : FetchResponse) :
    Except LambdaError LambdaInvokeResult :=
  let respPayload := parseJson response.contentText
  let logResult := jsGet response.headers "X-Amz-Log-Result"
  let result : LambdaInvokeResult :=
    { StatusCode := response.responseCode,
      ExecutedVersion := jsGet response.headers "X-Amz-Executed-Version",
      LogResult :=
        match logResult with
        | some s => if s = "" then none else some (base64Decode s)
        | none => none,
      Payload := respPayload }
  if result.StatusCode < 200 ∨ result.StatusCode > 299 then
    .error (.invocation (jsOrElse (result.Payload.getField "errorMessage")
      (result.Payload.getField "message")))
  else
    .ok result

/-- `Lambda.invoke` from `src/main.ts`. -/
def Lambda.invoke (cfg : AWSConfig) (hmac : List Nat → List Nat → List Nat)
    (sha256 : String → String) (dateFull dateShort : String)
    (fetch : FetchRequest → FetchResponse) (parseJson : String → Json)
    (p : LambdaInvokeParams) : Except LambdaError LambdaInvokeResult :=
  match request cfg hmac sha256 dateFull dateShort fetch (lambdaRequestParams cfg p) with
  | .error e => .error (.thrown e)
  | .ok response => handleInvokeResponse parseJson response

/-- Spec-side definition (claim C1, from the spec text of
`deriveSigningKey`): the 4-step HMAC-SHA256 chain, each step's raw-byte
output used as the key of the next, seeded with the UTF-8 bytes of
`"AWS4" + secretKey` and ending with message `"aws4_request"`. -/
def deriveSigningKey (hmac : List Nat → List Nat → List Nat)
    (secretKey dateStampShort region service : String) : List Nat :=
  let kDate := hmac (utf8Bytes ("AWS4" ++ secretKey)) (utf8Bytes dateStampShort)
  let kRegion := hmac kDate (utf8Bytes region)
  let kService := hmac kRegion (utf8Bytes service)
  hmac kService (utf8Bytes "aws4_request")

/-- Spec-side definition (claim C1, from the spec text of `signature`):
HMAC-SHA256 of the string to sign under the signing-key bytes, encoded as a
lowercase hex string. -/
def signatureFromKey (hmac : List Nat → List Nat → List Nat)
    (stringToSign : String) (signingKey : List Nat) : String :=
  bytesToHexLower (hmac signingKey (utf8Bytes stringToSign))

/-- Spec-side definition (claim C2): the canonical headers block, one
`key:value` line (newline-terminated) per sorted normalized header. -/
def canonicalHeadersBlockSpec (headers : List (String × String)) : String :=
  String.join ((sortedHeaders headers).map (fun h => h.1 ++ ":" ++ h.2 ++ "\n"))

/-- Spec-side definition (claim C2): the signed-headers string, the sorted
lowercase keys joined by `;`. -/
def signedHeadersSpec (headers : List (String × String)) : String :=
  String.intercalate ";" ((sortedHeaders headers).map Prod.fst)

/-- Spec-side definition (claim C2, from the spec text of
`canonicalRequestHash`): the hex digest of the six newline-joined lines —
method, normalized path, query string, canonical headers block,
signed-headers string, hex digest of the payload — paired with the
signed-headers string. -/
def canonicalRequestHashSpec (sha256 : String → String) (method path : String)
    (headers : List (String × String)) (queryString payloadString : String) :
    String × String :=
  (sha256 (String.intercalate "\n"
      [method, normalizedPath path, queryString, canonicalHeadersBlockSpec headers,
        signedHeadersSpec headers, sha256 payloadString]),
   signedHeadersSpec headers)

/-- A concrete stand-in for the external HMAC collaborator, used in
witnesses. -/
def hmacStub : List Nat → List Nat → List Nat :=
  fun key msg => [(key.foldl (fun a b => a + b) 0 + msg.foldl (fun a b => a + b) 0) % 256]

/-- A concrete stand-in for the external SHA-256 hex-digest collaborator,
used in witnesses. -/
def sha256Stub : String → String := fun s => bytesToHexLower (utf8Bytes s)

/-- A concrete stand-in for the external `JSON.parse` collaborator that
parses the body used in the claim C6 scenario. -/
def parseJsonStub : String → Json :=
  fun _ => Json.obj [("errorMessage", Json.str "not found")]

/-- The claim C6 scenario response: status 404 with body
`\x7b"errorMessage":"not found"\x7d`. -/
def respStub404 : FetchResponse :=
  { responseCode := 404, headers := [], contentText := "\x7b\"errorMessage\":\"not found\"\x7d" }

/-- A transport collaborator returning a fixed response. -/
def fetchStubOf (resp : FetchResponse) : FetchRequest → FetchResponse := fun _ => resp

/-- A fixed transport response for witnesses. -/
def respStubOk : FetchResponse :=
  { responseCode := 200, headers := [("X-Amz-Executed-Version", "1")], contentText := "null" }

/-- A configuration with no default credentials (claim C5 witness). -/
def cfgNoCreds : AWSConfig :=
  { apiVersions := [],
    credentials := { accessKeyId := none, secretAccessKey := none },
    region := some "us-east-1" }

/-- The array-push loop of `getCanonicalRequestHash` accumulates exactly the
mapped header lines and keys. -/
theorem foldl_push_pairs (l : List (String × String)) (a b : List String) :
    l.foldl (fun acc h => (acc.1 ++ [h.1 ++ ":" ++ h.2 ++ "\n"], acc.2 ++ [h.1])) (a, b)
      = (a ++ l.map (fun h => h.1 ++ ":" ++ h.2 ++ "\n"), b ++ l.map Prod.fst) := by
  induction l generalizing a b with
  | nil => simp
  | cons h t ih => simp [List.foldl_cons, ih]

/-- Reflexivity of the byte-wise comparison. -/
theorem charListLe_refl : ∀ (l : List Char), charListLe l l = true := by
  intro l
  induction l with
  | nil => rfl
  | cons x xs ih => simpa [charListLe] using ih

/-- Totality of the byte-wise comparison. -/
theorem charListLe_total : ∀ (a b : List Char),
    charListLe a b = true ∨ charListLe b a = true := by
  intro a
  induction a with
  | nil => intro b; left; rfl
  | cons x xs ih =>
    intro b
    cases b with
    | nil => right; rfl
    | cons y ys =>
      simp only [charListLe]
      rcases Nat.lt_trichotomy x.toNat y.toNat with h | h | h
      · left; simp [h]
      · rcases ih ys with h2 | h2
        · left; simp [h, h2]
        · right; simp [h.symm, h2]
      · right; simp [h]

/-- Transitivity of the byte-wise comparison. -/
theorem charListLe_trans : ∀ (a b c : List Char), charListLe a b = true →
    charListLe b c = true → charListLe a c = true := by
  intro a
  induction a with
  | nil => intro b c _ _; rfl
  | cons x xs ih =>
    intro b c h1 h2
    cases b with
    | nil => simp [charListLe] at h1
    | cons y ys =>
      cases c with
      | nil => simp [charListLe] at h2
      | cons z zs =>
        simp only [charListLe] at h1 h2 ⊢
        split_ifs at h1 h2 ⊢ <;>
          first
            | rfl
            | omega
            | exact ih ys zs h1 h2

/-- Antisymmetry of the byte-wise comparison. -/
theorem charListLe_antisymm : ∀ (a b : List Char), charListLe a b = true →
    charListLe b a = true → a = b := by
  intro a
  induction a with
  | nil =>
    intro b h1 h2
    cases b with
    | nil => rfl
    | cons y ys => simp [charListLe] at h2
  | cons x xs ih =>
    intro b h1 h2
    cases b with
    | nil => simp [charListLe] at h1
    | cons y ys =>
      simp only [charListLe] at h1 h2
      by_cases hxy : x.toNat < y.toNat
      · rw [if_neg (Nat.lt_asymm hxy), if_pos hxy] at h2
        exact absurd h2 (by simp)
      · by_cases hyx : y.toNat < x.toNat
        · rw [if_neg hxy, if_pos hyx] at h1
          exact absurd h1 (by simp)
        · rw [if_neg hxy, if_neg hyx] at h1
          rw [if_neg hyx, if_neg hxy] at h2
          have hxey : x = y :=
            Char.ext (UInt32.ext (Nat.le_antisymm (Nat.not_lt.mp hyx) (Nat.not_lt.mp hxy)))
          rw [hxey, ih ys h1 h2]

/-- The sorted query tokens are `strLeP`-sorted. -/
theorem sorted_insertionSort_strLeP (l : List String) :
    List.Sorted strLeP (List.insertionSort strLeP l) :=
  @List.sorted_insertionSort _ strLeP _
    ⟨fun a b => charListLe_total a.data b.data⟩
    ⟨fun a b c => charListLe_trans a.data b.data c.data⟩ l

/-- Sorting strings with the byte-wise comparator gives the same result on
any two permutations of the same multiset of strings. -/
theorem insertionSort_str_perm_eq {l1 l2 : List String} (h : l1.Perm l2) :
    List.insertionSort strLeP l1 = List.insertionSort strLeP l2 :=
  @List.eq_of_perm_of_sorted _ strLeP
    ⟨fun a b h1 h2 => by
      have := charListLe_antisymm a.data b.data h1 h2
      exact String.ext this⟩
    _ _
    ((List.perm_insertionSort strLeP l1).trans
      (h.trans (List.perm_insertionSort strLeP l2).symm))
    (sorted_insertionSort_strLeP l1) (sorted_insertionSort_strLeP l2)

/-- Reading a key from the in-place-update branch of `objSet` at the updated
key yields the new value. -/
theorem jsGet_map_set_self (l : List (String × String)) (k v : String)
    (hany : (l.any fun p => p.1 = k) = true) :
    jsGet (l.map (fun p => if p.1 = k then (k, v) else p)) k = some v := by
  induction l with
  | nil => simp at hany
  | cons p t ih =>
    obtain ⟨p1, p2⟩ := p
    by_cases hp : p1 = k
    · subst hp
      rw [List.map_cons, if_pos rfl]
      simp [jsGet]
    · have hany2 : (t.any fun q => q.1 = k) = true := by
        simp only [List.any_cons] at hany
        rcases Bool.or_eq_true_iff.mp hany with h1 | h2
        · exact absurd (of_decide_eq_true h1) hp
        · exact h2
      rw [List.map_cons, if_neg hp]
      simpa [jsGet, hp] using ih hany2

/-- Reading a key from the in-place-update branch of `objSet` at another key
is unchanged. -/
theorem jsGet_map_set_ne (l : List (String × String)) (k v k2 : String)
    (h : k2 ≠ k) :
    jsGet (l.map (fun p => if p.1 = k then (k, v) else p)) k2 = jsGet l k2 := by
  induction l with
  | nil => rfl
  | cons p t ih =>
    obtain ⟨p1, p2⟩ := p
    by_cases hp : p1 = k
    · subst hp
      have h1 : ¬(p1 = k2) := fun hq => h hq.symm
      rw [List.map_cons, if_pos rfl]
      simp [jsGet, h1, ih]
    · rw [List.map_cons, if_neg hp]
      by_cases hp2 : p1 = k2 <;> simp [jsGet, hp2, ih]

/-- Reading a key appended at the end when its key was absent yields the
appended value. -/
theorem jsGet_append_single_self (l : List (String × String)) (k v : String)
    (hany : ¬((l.any fun p => p.1 = k) = true)) :
    jsGet (l ++ [(k, v)]) k = some v := by
  induction l with
  | nil => simp [jsGet]
  | cons p t ih =>
    obtain ⟨p1, p2⟩ := p
    have hp : ¬(p1 = k) := by
      intro hk
      exact hany (by simp [List.any_cons, hk])
    have hany2 : ¬((t.any fun q => q.1 = k) = true) := by
      intro hk
      exact hany (by simp [List.any_cons, hk])
    simpa [jsGet, hp] using ih hany2

/-- Appending an entry for a different key does not change a read. -/
theorem jsGet_append_single_ne (l : List (String × String)) (k v k2 : String)
    (h : k2 ≠ k) : jsGet (l ++ [(k, v)]) k2 = jsGet l k2 := by
  induction l with
  | nil =>
    have h1 : ¬(k = k2) := fun hq => h hq.symm
    simp [jsGet, h1]
  | cons p t ih =>
    obtain ⟨p1, p2⟩ := p
    by_cases hp : p1 = k2 <;> simp [jsGet, hp, ih]

/-- Reading back the key just assigned by `objSet` yields the new value. -/
theorem jsGet_objSet_self (l : List (String × String)) (k v : String) :
    jsGet (objSet l k v) k = some v := by
  unfold objSet
  by_cases hany : (l.any fun p => p.1 = k) = true
  · simpa [hany] using jsGet_map_set_self l k v hany
  · simpa [hany] using jsGet_append_single_self l k v hany

/-- `objSet` leaves reads of other keys unchanged. -/
theorem jsGet_objSet_ne (l : List (String × String)) (k v k2 : String)
    (h : k2 ≠ k) : jsGet (objSet l k v) k2 = jsGet l k2 := by
  unfold objSet
  by_cases hany : (l.any fun p => p.1 = k) = true
  · simpa [hany] using jsGet_map_set_ne l k v k2 h
  · simpa [hany] using jsGet_append_single_ne l k v k2 h

/-- A deleted key reads as absent. -/
theorem jsGet_objDelete_self (l : List (String × String)) (k : String) :
    jsGet (objDelete l k) k = none := by
  induction l with
  | nil => rfl
  | cons p t ih =>
    obtain ⟨p1, p2⟩ := p
    by_cases hp : p1 = k
    · simpa [objDelete, List.filter_cons, hp] using ih
    · simpa [objDelete, List.filter_cons, jsGet, hp] using ih

/-- `objDelete` leaves reads of other keys unchanged. -/
theorem jsGet_objDelete_ne (l : List (String × String)) (k k2 : String)
    (h : k2 ≠ k) : jsGet (objDelete l k) k2 = jsGet l k2 := by
  induction l with
  | nil => rfl
  | cons p t ih =>
    obtain ⟨p1, p2⟩ := p
    by_cases hp : p1 = k
    · subst hp
      have h1 : ¬(p1 = k2) := fun hq => h hq.symm
      simpa [objDelete, List.filter_cons, jsGet, h1] using ih
    · by_cases hp2 : p1 = k2
      · simp [objDelete, List.filter_cons, jsGet, hp, hp2, h]
      · simpa [objDelete, List.filter_cons, jsGet, hp, hp2] using ih

/-- Splitting always yields at least one segment. -/
theorem splitSlash_ne_nil (l : List Char) : splitSlash l ≠ [] := by
  induction l with
  | nil => simp [splitSlash]
  | cons c rest ih =>
    by_cases hc : c = '/'
    · simp [splitSlash, hc]
    · simp only [splitSlash, if_neg hc]
      cases hs : splitSlash rest with
      | nil => simp
      | cons s ss => simp

/-- Joining the segments of a split restores the original characters. -/
theorem joinSlash_splitSlash (l : List Char) : joinSlash (splitSlash l) = l := by
  induction l with
  | nil => rfl
  | cons c rest ih =>
    by_cases hc : c = '/'
    · subst hc
      simp only [splitSlash, if_pos rfl]
      cases hs : splitSlash rest with
      | nil => exact absurd hs (splitSlash_ne_nil rest)
      | cons s ss =>
        rw [hs] at ih
        simp [joinSlash, ih]
    · simp only [splitSlash, if_neg hc]
      cases hs : splitSlash rest with
      | nil => exact absurd hs (splitSlash_ne_nil rest)
      | cons s ss =>
        rw [hs] at ih
        cases ss with
        | nil => simpa [joinSlash] using ih
        | cons t ts => simpa [joinSlash, List.cons_append] using ih

/-- `encodeURIComponent` is the identity on unreserved characters. -/
theorem encodeURIComponentL_id {l : List Char}
    (h : ∀ c ∈ l, isUriUnreserved c = true) : encodeURIComponentL l = l := by
  induction l with
  | nil => rfl
  | cons c rest ih =>
    have hc : isUriUnreserved c = true := h c (List.mem_cons_self c rest)
    have hrest : ∀ c2 ∈ rest, isUriUnreserved c2 = true :=
      fun c2 hc2 => h c2 (List.mem_cons_of_mem c hc2)
    simp [encodeURIComponentL, hc]
    simpa [encodeURIComponentL] using ih hrest

/-- Every character of every segment of a split is a non-slash character of
the input. -/
theorem splitSlash_chars {l : List Char} :
    ∀ seg ∈ splitSlash l, ∀ c ∈ seg, c ∈ l ∧ c ≠ '/' := by
  induction l with
  | nil =>
    intro seg hseg c hc
    simp [splitSlash] at hseg
    subst hseg
    simp at hc
  | cons a rest ih =>
    intro seg hseg c hc
    by_cases ha : a = '/'
    · simp only [splitSlash, if_pos ha] at hseg
      rcases List.mem_cons.mp hseg with h1 | h2
      · subst h1
        simp at hc
      · have := ih seg h2 c hc
        exact ⟨List.mem_cons_of_mem a this.1, this.2⟩
    · simp only [splitSlash, if_neg ha] at hseg
      cases hs : splitSlash rest with
      | nil => exact absurd hs (splitSlash_ne_nil rest)
      | cons s ss =>
        rw [hs] at hseg
        rcases List.mem_cons.mp hseg with h1 | h2
        · subst h1
          rcases List.mem_cons.mp hc with h3 | h4
          · rw [h3]
            exact ⟨List.mem_cons_self a rest, ha⟩
          · have := ih s (hs ▸ List.mem_cons_self s ss) c h4
            exact ⟨List.mem_cons_of_mem a this.1, this.2⟩
        · have := ih seg (hs ▸ List.mem_cons_of_mem s h2) c hc
          exact ⟨List.mem_cons_of_mem a this.1, this.2⟩

/-- On a path whose characters are all unreserved or slashes, path
normalization is the identity. -/
theorem normalizedPath_id {p : String}
    (h : ∀ c ∈ p.data, isUriUnreserved c = true ∨ c = '/') :
    normalizedPath p = p := by
  have hmap : (splitSlash p.data).map encodeURIComponentL = splitSlash p.data := by
    have : ∀ seg ∈ splitSlash p.data, encodeURIComponentL seg = seg := by
      intro seg hseg
      apply encodeURIComponentL_id
      intro c hc
      have hcl := splitSlash_chars seg hseg c hc
      rcases h c hcl.1 with h1 | h2
      · exact h1
      · exact absurd h2 hcl.2
    calc (splitSlash p.data).map encodeURIComponentL
        = (splitSlash p.data).map id := List.map_congr_left this
      _ = splitSlash p.data := List.map_id _
  show String.mk (joinSlash ((splitSlash p.data).map encodeURIComponentL)) = p
  rw [hmap, joinSlash_splitSlash]

/-- The last element of a cons with a nonempty tail is the last element of
the tail. -/
theorem getLast?_cons_ne_nil (a : Char) {l : List Char} (h : l ≠ []) :
    (a :: l).getLast? = l.getLast? := by
  cases l with
  | nil => exact absurd rfl h
  | cons b t => exact List.getLast?_cons_cons

set_option maxHeartbeats 1600000 in
/-- Unfolding equation of `collapseWsL` on a list of length at least two
(stated once, with a raised heartbeat limit, to generate the equation and
functional-induction lemmas of the well-founded definition). -/
theorem collapseWsL_cons_cons (c1 c2 : Char) (rest : List Char) :
    collapseWsL (c1 :: c2 :: rest) =
      if isJsWs c1 then
        if isJsWs c2 then collapseWsL (' ' :: rest)
        else c1 :: collapseWsL (c2 :: rest)
      else c1 :: collapseWsL (c2 :: rest) := by
  rw [collapseWsL]

set_option maxHeartbeats 1600000 in
/-- Whitespace collapse preserves nonemptiness. -/
theorem collapseWsL_ne_nil : ∀ (l : List Char), l ≠ [] → collapseWsL l ≠ [] := by
  intro l
  induction l using collapseWsL.induct with
  | case1 => intro h; exact absurd rfl h
  | case2 c => intro _; simp [collapseWsL]
  | case3 c1 c2 rest h1 h2 ih =>
    intro _
    rw [collapseWsL, if_pos h1, if_pos h2]
    exact ih (by simp)
  | case4 c1 c2 rest h1 h2 ih =>
    intro _
    rw [collapseWsL, if_pos h1, if_neg h2]
    simp
  | case5 c1 c2 rest h1 ih =>
    intro _
    rw [collapseWsL, if_neg h1]
    simp

theorem collapseWsL_head? (c : Char) (l : List Char) (h : isJsWs c = false) :
    (collapseWsL (c :: l)).head? = some c := by
  cases l with
  | nil => simp [collapseWsL]
  | cons c2 rest =>
    rw [collapseWsL, if_neg (by simp [h])]
    simp

theorem collapseWsL_chain : ∀ (l : List Char),
    List.Chain' (fun a b => ¬(isJsWs a = true ∧ isJsWs b = true)) (collapseWsL l) := by
  intro l
  induction l using collapseWsL.induct with
  | case1 => simp [collapseWsL]
  | case2 c => simp [collapseWsL]
  | case3 c1 c2 rest h1 h2 ih =>
    rw [collapseWsL, if_pos h1, if_pos h2]
    exact ih
  | case4 c1 c2 rest h1 h2 ih =>
    rw [collapseWsL, if_pos h1, if_neg h2]
    rw [List.chain'_cons']
    refine ⟨?_, ih⟩
    intro y hy
    rw [collapseWsL_head? c2 rest (by simpa using h2)] at hy
    simp only [Option.mem_def, Option.some.injEq] at hy
    subst hy
    intro hand
    exact h2 hand.2
  | case5 c1 c2 rest h1 ih =>
    rw [collapseWsL, if_neg h1]
    rw [List.chain'_cons']
    refine ⟨?_, ih⟩
    intro y _
    intro hand
    exact h1 hand.1

theorem collapseWsL_getLast? : ∀ (l : List Char) (c : Char),
    l.getLast? = some c → isJsWs c = false → (collapseWsL l).getLast? = some c := by
  intro l
  induction l using collapseWsL.induct with
  | case1 => intro c h hc; simp at h
  | case2 c0 => intro c h hc; simpa [collapseWsL] using h
  | case3 c1 c2 rest h1 h2 ih =>
    intro c h hc
    rw [collapseWsL, if_pos h1, if_pos h2]
    cases rest with
    | nil =>
      simp [List.getLast?] at h
      rw [← h] at hc
      rw [hc] at h2
      exact absurd h2 (by simp)
    | cons r rs =>
      apply ih c _ hc
      rw [List.getLast?_cons_cons]
      rw [List.getLast?_cons_cons, List.getLast?_cons_cons] at h
      exact h
  | case4 c1 c2 rest h1 h2 ih =>
    intro c h hc
    rw [collapseWsL, if_pos h1, if_neg h2]
    rw [List.getLast?_cons_cons] at h
    rw [getLast?_cons_ne_nil c1 (collapseWsL_ne_nil (c2 :: rest) (by simp))]
    exact ih c h hc
  | case5 c1 c2 rest h1 ih =>
    intro c h hc
    rw [collapseWsL, if_neg h1]
    rw [List.getLast?_cons_cons] at h
    rw [getLast?_cons_ne_nil c1 (collapseWsL_ne_nil (c2 :: rest) (by simp))]
    exact ih c h hc

/-- The first character surviving a whitespace `dropWhile` is not
whitespace. -/
theorem head?_dropWhile_ws : ∀ (l : List Char) (c : Char),
    (l.dropWhile isJsWs).head? = some c → isJsWs c = false := by
  intro l
  induction l with
  | nil => intro c h; simp at h
  | cons a t ih =>
    intro c h
    by_cases ha : isJsWs a = true
    · rw [List.dropWhile_cons_of_pos ha] at h
      exact ih c h
    · rw [List.dropWhile_cons_of_neg ha] at h
      simp only [List.head?_cons, Option.some.injEq] at h
      subst h
      simpa using ha

/-- A whitespace `dropWhile` keeps the last element when its result is
nonempty. -/
theorem getLast?_dropWhile_ws : ∀ (l : List Char),
    l.dropWhile isJsWs ≠ [] → (l.dropWhile isJsWs).getLast? = l.getLast? := by
  intro l
  induction l with
  | nil => intro h; simp at h
  | cons a t ih =>
    intro h
    by_cases ha : isJsWs a = true
    · rw [List.dropWhile_cons_of_pos ha] at h ⊢
      have ht : t ≠ [] := by
        intro he
        rw [he] at h
        simp at h
      rw [ih h, getLast?_cons_ne_nil a ht]
    · rw [List.dropWhile_cons_of_neg ha]

/-- The last character of a trimmed string is not whitespace. -/
theorem jsTrimL_getLast? (l : List Char) (c : Char)
    (h : (jsTrimL l).getLast? = some c) : isJsWs c = false := by
  unfold jsTrimL at h
  rw [List.getLast?_reverse] at h
  exact head?_dropWhile_ws _ c h

/-- The first character of a trimmed string is not whitespace. -/
theorem jsTrimL_head? (l : List Char) (c : Char)
    (h : (jsTrimL l).head? = some c) : isJsWs c = false := by
  unfold jsTrimL at h
  rw [List.head?_reverse] at h
  have hne : (l.dropWhile isJsWs).reverse.dropWhile isJsWs ≠ [] := by
    intro he
    rw [he] at h
    simp at h
  rw [getLast?_dropWhile_ws _ hne, List.getLast?_reverse] at h
  exact head?_dropWhile_ws _ c h


/-- A normalized header value has no two adjacent whitespace characters. -/
theorem normalizeHeaderValue_chain (s : String) :
    List.Chain' (fun a b => ¬(isJsWs a = true ∧ isJsWs b = true))
      (normalizeHeaderValue s).data := by
  show List.Chain' _ (collapseWsL (jsTrimL s.data))
  exact collapseWsL_chain (jsTrimL s.data)

/-- A normalized header value does not start with whitespace. -/
theorem normalizeHeaderValue_head (s : String) (c : Char)
    (h : (normalizeHeaderValue s).data.head? = some c) : isJsWs c = false := by
  have h0 : (collapseWsL (jsTrimL s.data)).head? = some c := h
  cases ht : jsTrimL s.data with
  | nil =>
    rw [ht] at h0
    simp [collapseWsL] at h0
  | cons a t =>
    have ha : isJsWs a = false := jsTrimL_head? s.data a (by rw [ht]; rfl)
    rw [ht, collapseWsL_head? a t ha] at h0
    simp only [Option.some.injEq] at h0
    rw [← h0]
    exact ha

/-- A normalized header value does not end with whitespace. -/
theorem normalizeHeaderValue_getLast (s : String) (c : Char)
    (h : (normalizeHeaderValue s).data.getLast? = some c) : isJsWs c = false := by
  have h0 : (collapseWsL (jsTrimL s.data)).getLast? = some c := h
  cases ht : jsTrimL s.data with
  | nil =>
    rw [ht] at h0
    simp [collapseWsL] at h0
  | cons a t =>
    cases hl : (a :: t).getLast? with
    | none => simp at hl
    | some x =>
      have hx : isJsWs x = false := jsTrimL_getLast? s.data x (by rw [ht]; exact hl)
      rw [ht, collapseWsL_getLast? (a :: t) x hl hx] at h0
      simp only [Option.some.injEq] at h0
      rw [← h0]
      exact hx

/-- Claim C1: for every secret key, short date stamp, region, service and
string-to-sign, the signing computation of `calculateSignature` equals the
4-step HMAC-SHA256 chain kDate, kRegion, kService, kSigning (each
intermediate used as raw key bytes), with the final signature the lowercase
hex encoding of HMAC-SHA256 under the derived signing key. -/
theorem claim_C1_signature_chain (hmac : List Nat → List Nat → List Nat)
    (key dateStamp regionName serviceName stringToSign : String) :
    calculateSignature hmac key dateStamp regionName serviceName stringToSign =
      signatureFromKey hmac stringToSign
        (deriveSigningKey hmac key dateStamp regionName serviceName) := rfl

/-- Claim C2: for every method, path, headers map, query string and payload
string, the canonical request hash is the hex digest of the six
newline-joined lines (method, normalized path, query string, canonical
headers block, signed-headers string, hex digest of the raw payload), and
the signed-headers string is returned alongside. -/
theorem claim_C2_canonical_request_hash (sha256 : String → String)
    (method path : String) (headers : List (String × String))
    (queryString payloadString : String) :
    getCanonicalRequestHash sha256 method path headers queryString payloadString =
      canonicalRequestHashSpec sha256 method path headers queryString payloadString := by
  unfold getCanonicalRequestHash canonicalRequestHashSpec canonicalHeadersBlockSpec
    signedHeadersSpec
  rw [foldl_push_pairs]
  simp

/-- Claim C3: the canonical query string percent-encodes the trimmed key and
the value of each pair, sorts the encoded tokens byte-wise and joins them
with ampersands, so its output is invariant under permutation of the input
pairs; in particular the mapping with b before a canonicalizes to
`a=1&b=2`. -/
theorem claim_C3_query_order_invariance (q1 q2 : List (String × Option String))
    (h : q1.Perm q2) :
    getCanonicalQueryString q1 = getCanonicalQueryString q2 ∧
    getCanonicalQueryString [("b", some "2"), ("a", some "1")] = "a=1&b=2" := by
  constructor
  · unfold getCanonicalQueryString
    congr 1
    exact insertionSort_str_perm_eq (h.map _)
  · decide

/-- Claim C3 witness: the two-pair query in either insertion order
canonicalizes identically, to `a=1&b=2`. -/
theorem claim_C3_query_order_invariance_witness :
    getCanonicalQueryString [("b", some "2"), ("a", some "1")] =
      getCanonicalQueryString [("a", some "1"), ("b", some "2")] ∧
    getCanonicalQueryString [("b", some "2"), ("a", some "1")] = "a=1&b=2" :=
  ⟨(claim_C3_query_order_invariance [("b", some "2"), ("a", some "1")]
      [("a", some "1"), ("b", some "2")] (by decide)).1,
   (claim_C3_query_order_invariance [("b", some "2"), ("a", some "1")]
      [("a", some "1"), ("b", some "2")] (by decide)).2⟩

/-- Claim C7: path normalization is the identity, hence idempotent, on paths
containing only unreserved characters and slashes. -/
theorem claim_C7_normalized_path_idempotent (p : String)
    (h : ∀ c ∈ p.data, isUriUnreserved c = true ∨ c = '/') :
    normalizedPath (normalizedPath p) = normalizedPath p ∧ normalizedPath p = p := by
  have h1 := normalizedPath_id h
  refine ⟨?_, h1⟩
  rw [h1]
  exact h1

/-- Claim C7 witness: a concrete unreserved path is a fixed point of
normalization. -/
theorem claim_C7_normalized_path_idempotent_witness :
    normalizedPath (normalizedPath "/foo/bar-1.2") = normalizedPath "/foo/bar-1.2" ∧
    normalizedPath "/foo/bar-1.2" = "/foo/bar-1.2" :=
  claim_C7_normalized_path_idempotent "/foo/bar-1.2" (by decide)

/-- Claim C8: every service in the fixed table resolves to its fixed host
for every region, and every service outside the table resolves to
`service.region.amazonaws.com`. -/
theorem claim_C8_endpoint_resolution (region : String) :
    hostFor "cloudfront" region = "cloudfront.amazonaws.com" ∧
    hostFor "health" region = "health.us-east-1.amazonaws.com" ∧
    hostFor "iam" region = "iam.amazonaws.com" ∧
    hostFor "importexport" region = "importexport.amazonaws.com" ∧
    hostFor "shield" region = "shield.us-east-1.amazonaws.com" ∧
    hostFor "waf" region = "waf.amazonaws.com" ∧
    (∀ s : String,
      s ∉ ["cloudfront", "health", "iam", "importexport", "shield", "waf"] →
      hostFor s region = s ++ "." ++ region ++ ".amazonaws.com") := by
  refine ⟨rfl, rfl, rfl, rfl, rfl, rfl, ?_⟩
  intro s hs
  simp only [List.mem_cons, List.not_mem_nil, or_false, not_or] at hs
  obtain ⟨h1, h2, h3, h4, h5, h6⟩ := hs
  simp [hostFor, AWS_SINGLE_ENDPOINT, jsGet, Ne.symm h1, Ne.symm h2,
    Ne.symm h3, Ne.symm h4, Ne.symm h5, Ne.symm h6]

/-- Claim C8 witness: a table service ignores the region and a non-table
service uses the generic regional host. -/
theorem claim_C8_endpoint_resolution_witness :
    hostFor "iam" "eu-west-3" = "iam.amazonaws.com" ∧
    hostFor "ec2" "eu-west-3" = "ec2.eu-west-3.amazonaws.com" :=
  ⟨(claim_C8_endpoint_resolution "eu-west-3").2.2.1,
   (claim_C8_endpoint_resolution "eu-west-3").2.2.2.2.2.2 "ec2" (by decide)⟩

/-- Reflexivity of the string comparison. -/
theorem jsStrLe_refl (s : String) : jsStrLe s s = true :=
  charListLe_refl s.data

/-- The normalized value of a one-character non-whitespace string is
itself. -/
theorem normalizeHeaderValue_single (c : Char) (h : isJsWs c = false) :
    normalizeHeaderValue (String.mk [c]) = String.mk [c] := by
  show String.mk (collapseWsL (jsTrimL [c])) = String.mk [c]
  have ht : jsTrimL [c] = [c] := by
    unfold jsTrimL
    rw [List.dropWhile_cons_of_neg (by simp [h])]
    simp [List.dropWhile_cons_of_neg, h]
  rw [ht, collapseWsL]

/-- Claim C4 counterexample: the header keys `Foo` and `foo` differ only by
letter case, yet the sorted normalized header list keeps two entries (and
the signed-headers string lists the lowercased key twice), not one. -/
theorem claim_C4_case_headers_counterexample :
    sortedHeaders [("Foo", "x"), ("foo", "y")] = [("foo", "x"), ("foo", "y")] ∧
    (sortedHeaders [("Foo", "x"), ("foo", "y")]).length = 2 ∧
    (getCanonicalRequestHash sha256Stub "GET" "/" [("Foo", "x"), ("foo", "y")] "" "").2 =
      "foo;foo" := by
  have hx : normalizeHeaderValue "x" = "x" := normalizeHeaderValue_single 'x' (by decide)
  have hy : normalizeHeaderValue "y" = "y" := normalizeHeaderValue_single 'y' (by decide)
  have hs : sortedHeaders [("Foo", "x"), ("foo", "y")] = [("foo", "x"), ("foo", "y")] := by
    show List.insertionSort pairKeyLe
      [(jsToLower (jsTrim "Foo"), normalizeHeaderValue "x"),
       (jsToLower (jsTrim "foo"), normalizeHeaderValue "y")] = _
    rw [hx, hy]
    decide
  refine ⟨hs, by rw [hs]; rfl, ?_⟩
  show (getCanonicalRequestHash sha256Stub "GET" "/" [("Foo", "x"), ("foo", "y")] "" "").2 =
    "foo;foo"
  rw [claim_C2_canonical_request_hash]
  show String.intercalate ";" ((sortedHeaders [("Foo", "x"), ("foo", "y")]).map Prod.fst) =
    "foo;foo"
  rw [hs]
  decide

/-- Claim C4 (amended): two header keys that normalize to the same lowercase
key produce two separate adjacent entries (not one collapsed entry) in the
sorted normalized header list, in insertion order; and every normalized
header value has no two adjacent whitespace characters (each run of 2 or
more whitespace was replaced by exactly one space) and neither starts nor
ends with whitespace. -/
theorem claim_C4_header_normalization (k1 k2 v1 v2 : String)
    (h : jsToLower (jsTrim k1) = jsToLower (jsTrim k2)) :
    sortedHeaders [(k1, v1), (k2, v2)] =
      [(jsToLower (jsTrim k1), normalizeHeaderValue v1),
       (jsToLower (jsTrim k1), normalizeHeaderValue v2)] ∧
    (∀ v : String, List.Chain' (fun a b => ¬(isJsWs a = true ∧ isJsWs b = true))
      (normalizeHeaderValue v).data) ∧
    (∀ (v : String) (c : Char),
      (normalizeHeaderValue v).data.head? = some c → isJsWs c = false) ∧
    (∀ (v : String) (c : Char),
      (normalizeHeaderValue v).data.getLast? = some c → isJsWs c = false) := by
  refine ⟨?_, normalizeHeaderValue_chain, normalizeHeaderValue_head,
    normalizeHeaderValue_getLast⟩
  show List.insertionSort pairKeyLe
    [(jsToLower (jsTrim k1), normalizeHeaderValue v1),
     (jsToLower (jsTrim k2), normalizeHeaderValue v2)] = _
  rw [← h]
  simp only [List.insertionSort, List.orderedInsert]
  rw [if_pos (show pairKeyLe (jsToLower (jsTrim k1), normalizeHeaderValue v1)
    (jsToLower (jsTrim k1), normalizeHeaderValue v2) from jsStrLe_refl _)]

/-- Claim C4 witness: the keys `Foo` and `foo` normalize to the same
lowercase key and yield two separate entries. -/
theorem claim_C4_header_normalization_witness :
    jsToLower (jsTrim "Foo") = jsToLower (jsTrim "foo") ∧
    sortedHeaders [("Foo", "x"), ("foo", "y")] =
      [(jsToLower (jsTrim "Foo"), normalizeHeaderValue "x"),
       (jsToLower (jsTrim "Foo"), normalizeHeaderValue "y")] :=
  ⟨by decide, (claim_C4_header_normalization "Foo" "foo" "x" "y" (by decide)).1⟩

/-- Claim C5: when neither an explicit credential parameter nor a
process-wide default credential is present, `request` fails with the
configuration error before the transport collaborator can contribute
anything (the result is the same error for every transport), and an
explicitly supplied credential always wins over the configured default. -/
theorem claim_C5_missing_credentials (cfg : AWSConfig) (params : RequestParams)
    (hmac : List Nat → List Nat → List Nat) (sha256 : String → String)
    (dateFull dateShort : String)
    (h1 : params.accessKeyId = none) (h2 : params.secretAccessKey = none)
    (h3 : cfg.credentials.accessKeyId = none)
    (h4 : cfg.credentials.secretAccessKey = none) :
    (∀ fetch : FetchRequest → FetchResponse,
      request cfg hmac sha256 dateFull dateShort fetch params =
        .error (.configurationError "AWS access key id not specified")) ∧
    (∀ (p2 : RequestParams) (c2 : AWSConfig) (k : String),
      p2.accessKeyId = some k → resolveAccessKeyId p2 c2 = some k) ∧
    (∀ (p2 : RequestParams) (c2 : AWSConfig) (k : String),
      p2.secretAccessKey = some k → resolveSecretAccessKey p2 c2 = some k) := by
  refine ⟨?_, ?_, ?_⟩
  · intro fetch
    have ha : resolveAccessKeyId params cfg = none := by
      unfold resolveAccessKeyId
      rw [h1]
      exact h3
    simp [request, ha]
  · intro p2 c2 k hk
    unfold resolveAccessKeyId
    rw [hk]
  · intro p2 c2 k hk
    unfold resolveSecretAccessKey
    rw [hk]

/-- Claim C5 witness: with no explicit credentials and a credential-less
configuration, a concrete request fails with the configuration error. -/
theorem claim_C5_missing_credentials_witness :
    request cfgNoCreds hmacStub sha256Stub "20150830T123600Z" "20150830"
        (fetchStubOf respStubOk) { service := "ec2" } =
      .error (.configurationError "AWS access key id not specified") :=
  (claim_C5_missing_credentials cfgNoCreds { service := "ec2" } hmacStub sha256Stub
    "20150830T123600Z" "20150830" rfl rfl rfl rfl).1 (fetchStubOf respStubOk)

/-- Claim C10: with the default configuration of `src/config.ts` (which
holds empty-string credentials) and no explicit credential parameters, the
assertions pass and `request` proceeds to sign and send using the
empty-string access key and secret key. -/
theorem claim_C10_empty_default_credentials
    (hmac : List Nat → List Nat → List Nat) (sha256 : String → String)
    (dateFull dateShort : String) (fetch : FetchRequest → FetchResponse)
    (params : RequestParams) (region : String)
    (h1 : params.accessKeyId = none) (h2 : params.secretAccessKey = none)
    (h3 : resolveRegion params config = some region) :
    request config hmac sha256 dateFull dateShort fetch params =
      .ok (fetch (buildSignedFetchRequest hmac sha256 dateFull dateShort "" ""
        (jsToLower params.service) region params)) := by
  have ha : resolveAccessKeyId params config = some "" := by
    unfold resolveAccessKeyId
    rw [h1]
    rfl
  have hs : resolveSecretAccessKey params config = some "" := by
    unfold resolveSecretAccessKey
    rw [h2]
    rfl
  simp [request, ha, hs, h3]

/-- Claim C10 witness: a concrete parameter-less-credential call against the
shipped default configuration goes through to the transport with
empty-string credentials. -/
theorem claim_C10_empty_default_credentials_witness :
    request config hmacStub sha256Stub "20150830T123600Z" "20150830"
        (fetchStubOf respStubOk) { service := "EC2" } =
      .ok (fetchStubOf respStubOk
        (buildSignedFetchRequest hmacStub sha256Stub "20150830T123600Z" "20150830"
          "" "" (jsToLower ({ service := "EC2" } : RequestParams).service) "us-west-1"
          { service := "EC2" })) :=
  claim_C10_empty_default_credentials hmacStub sha256Stub "20150830T123600Z"
    "20150830" (fetchStubOf respStubOk) { service := "EC2" } "us-west-1" rfl rfl rfl

/-- Claim C6: the invocation call hands the transport response to the
response handler; whenever the status code is outside 200..299 the handler
fails with the error carrying the provider-reported message field of the
parsed JSON body (in particular status 404 with body field
`errorMessage = "not found"` fails with message `not found`); otherwise it
returns the record of status code, executed-version header, optionally
base64-decoded log-tail header, and JSON-parsed body. -/
theorem claim_C6_lambda_invoke_response (parseJson : String → Json)
    (resp : FetchResponse) :
    (∀ (hmac : List Nat → List Nat → List Nat) (sha256 : String → String)
      (dateFull dateShort : String) (p : LambdaInvokeParams),
      Lambda.invoke config hmac sha256 dateFull dateShort (fetchStubOf resp)
        parseJson p = handleInvokeResponse parseJson resp) ∧
    (resp.responseCode < 200 ∨ resp.responseCode > 299 →
      handleInvokeResponse parseJson resp = .error (.invocation
        (jsOrElse ((parseJson resp.contentText).getField "errorMessage")
          ((parseJson resp.contentText).getField "message")))) ∧
    (resp.responseCode = 404 →
      parseJson resp.contentText = Json.obj [("errorMessage", Json.str "not found")] →
      handleInvokeResponse parseJson resp =
        .error (.invocation (some (Json.str "not found")))) ∧
    (¬(resp.responseCode < 200 ∨ resp.responseCode > 299) →
      handleInvokeResponse parseJson resp = .ok
        { StatusCode := resp.responseCode,
          ExecutedVersion := jsGet resp.headers "X-Amz-Executed-Version",
          LogResult :=
            match jsGet resp.headers "X-Amz-Log-Result" with
            | some s => if s = "" then none else some (base64Decode s)
            | none => none,
          Payload := parseJson resp.contentText }) := by
  refine ⟨fun hmac sha256 dateFull dateShort p => rfl, ?_, ?_, ?_⟩
  · intro h
    simp only [handleInvokeResponse]
    split_ifs
    rfl
  · intro h404 hparse
    simp only [handleInvokeResponse]
    split_ifs with hc
    · rw [hparse]
      simp [jsOrElse, jsTruthy, Json.getField, Json.getField.go]
    · exact absurd (Or.inr (by omega)) hc
  · intro h
    simp only [handleInvokeResponse]
    split_ifs
    rfl

/-- Claim C6 witness: the 404 scenario with body field
`errorMessage = "not found"` fails with that message. -/
theorem claim_C6_lambda_invoke_response_witness :
    handleInvokeResponse parseJsonStub respStub404 =
      .error (.invocation (some (Json.str "not found"))) :=
  (claim_C6_lambda_invoke_response parseJsonStub respStub404).2.2.1 rfl rfl

/-- Claim C9: the headers handed to the transport collaborator carry the
`X-Amz-Date` header and the `Authorization` header in the documented
`Credential`/`SignedHeaders`/`Signature` format, carry no `Host` header,
and keep every caller-supplied header other than `Host`, `X-Amz-Date` and
`Authorization` unchanged. -/
theorem claim_C9_transport_headers (hmac : List Nat → List Nat → List Nat)
    (sha256 : String → String)
    (dateFull dateShort accessKeyId secretAccessKey service region : String)
    (params : RequestParams) :
    (buildSignedFetchRequest hmac sha256 dateFull dateShort accessKeyId
        secretAccessKey service region params).headers =
      finalRequestHeaders hmac sha256 dateFull dateShort accessKeyId
        secretAccessKey service region params ∧
    jsGet (finalRequestHeaders hmac sha256 dateFull dateShort accessKeyId
      secretAccessKey service region params) "X-Amz-Date" = some dateFull ∧
    jsGet (finalRequestHeaders hmac sha256 dateFull dateShort accessKeyId
        secretAccessKey service region params) "Authorization" =
      some (authHeaderValueOf accessKeyId
        (credentialScopeOf dateShort region service)
        (getCanonicalRequestHash sha256 (resolvedMethod params) (resolvedPath params)
          (headersWithHostDate params (hostFor service region) dateFull)
          (getCanonicalQueryString (params.query.getD []))
          (resolvedPayloadString params)).2
        (calculateSignature hmac secretAccessKey dateShort region service
          (stringToSignOf dateFull (credentialScopeOf dateShort region service)
            (getCanonicalRequestHash sha256 (resolvedMethod params) (resolvedPath params)
              (headersWithHostDate params (hostFor service region) dateFull)
              (getCanonicalQueryString (params.query.getD []))
              (resolvedPayloadString params)).1))) ∧
    jsGet (finalRequestHeaders hmac sha256 dateFull dateShort accessKeyId
      secretAccessKey service region params) "Host" = none ∧
    (∀ (k v : String), jsGet (params.headers.getD []) k = some v →
      k ≠ "Host" → k ≠ "X-Amz-Date" → k ≠ "Authorization" →
      jsGet (finalRequestHeaders hmac sha256 dateFull dateShort accessKeyId
        secretAccessKey service region params) k = some v) := by
  refine ⟨rfl, ?_, ?_, ?_, ?_⟩
  · simp only [finalRequestHeaders]
    rw [jsGet_objDelete_ne _ _ _ (by decide), jsGet_objSet_ne _ _ _ _ (by decide)]
    unfold headersWithHostDate
    exact jsGet_objSet_self _ _ _
  · simp only [finalRequestHeaders]
    rw [jsGet_objDelete_ne _ _ _ (by decide)]
    exact jsGet_objSet_self _ _ _
  · simp only [finalRequestHeaders]
    exact jsGet_objDelete_self _ _
  · intro k v hk hH hX hA
    simp only [finalRequestHeaders]
    rw [jsGet_objDelete_ne _ _ _ hH, jsGet_objSet_ne _ _ _ _ hA]
    unfold headersWithHostDate
    rw [jsGet_objSet_ne _ _ _ _ hX, jsGet_objSet_ne _ _ _ _ hH]
    exact hk

/-- Claim C9 witness: in a concrete signed request the final headers carry
no `Host` entry and keep the caller-supplied `Content-Type` unchanged. -/
theorem claim_C9_transport_headers_witness :
    jsGet (finalRequestHeaders hmacStub sha256Stub "20150830T123600Z" "20150830"
      "AK" "SK" "lambda" "us-east-1"
      { service := "lambda", headers := some [("Content-Type", "application/json")] })
      "Host" = none ∧
    jsGet (finalRequestHeaders hmacStub sha256Stub "20150830T123600Z" "20150830"
      "AK" "SK" "lambda" "us-east-1"
      { service := "lambda", headers := some [("Content-Type", "application/json")] })
      "Content-Type" = some "application/json" :=
  ⟨(claim_C9_transport_headers hmacStub sha256Stub "20150830T123600Z" "20150830"
      "AK" "SK" "lambda" "us-east-1"
      { service := "lambda", headers := some [("Content-Type", "application/json")] }).2.2.2.1,
   (claim_C9_transport_headers hmacStub sha256Stub "20150830T123600Z" "20150830"
      "AK" "SK" "lambda" "us-east-1"
      { service := "lambda", headers := some [("Content-Type", "application/json")] }).2.2.2.2
     "Content-Type" "application/json" (by decide) (by decide) (by decide) (by decide)⟩
